import Mathlib

/-!
Shallow embedding of the `melter-plugin` signal-processing core
(`src/equalization.rs`, `src/filters.rs`, `src/nonlinearity.rs`, and the
per-block processing loop of `src/lib.rs`), with `f32` modelled as `ℝ`.
Rust methods that mutate `&mut self` are embedded as functions returning the
updated value (paired with the result where the method returns one).
-/

namespace Melter

/-- `BandType` from `equalization.rs`. -/
inductive BandType where
  | LowShelf
  | Peak
  | HighShelf
deriving DecidableEq, Repr

/-- `BiquadCoeffs` from `equalization.rs`. -/
structure BiquadCoeffs where
  b0 : ℝ
  b1 : ℝ
  b2 : ℝ
  a0 : ℝ
  a1 : ℝ
  a2 : ℝ

/-- `FilterState` from `equalization.rs`. -/
structure FilterState where
  x1 : ℝ
  x2 : ℝ
  y1 : ℝ
  y2 : ℝ

/-- `EQBand` from `equalization.rs`. -/
structure EQBand where
  band_type : BandType
  freq : ℝ
  gain : ℝ
  q : ℝ
  coeffs : BiquadCoeffs
  state : FilterState

/-- `ParametricEQ` from `equalization.rs`. -/
structure ParametricEQ where
  sample_rate : ℝ
  bands : List EQBand

/-- The un-normalized `(b0, b1, b2, a0, a1, a2)` tuple produced by the
`match` in `EQBand::set_params`, as a record. -/
structure RawCoeffs where
  b0 : ℝ
  b1 : ℝ
  b2 : ℝ
  a0 : ℝ
  a1 : ℝ
  a2 : ℝ

/-- The Q adjustment at the top of `EQBand::set_params`:
`q * a.max(1.0)` for the shelf types, `q` unchanged for `Peak`. -/
noncomputable def adjustedQ (bt : BandType) (a q : ℝ) : ℝ :=
  match bt with
  | .LowShelf | .HighShelf => q * max a 1
  | .Peak => q

/-- The coefficient derivation of `EQBand::set_params` (lines 137-205 of
`equalization.rs`) before normalization: `a = 10^(gain_db/40)`,
`ω = 2π·freq/sample_rate`, `α = sin ω / (2·adjusted_q)`, then the
per-band-type cookbook tuple. -/
noncomputable def biquadRaw (bt : BandType) (freq gain_db q sample_rate : ℝ) :
    RawCoeffs :=
  let a : ℝ := (10 : ℝ) ^ (gain_db / 40)
  let adjusted_q := adjustedQ bt a q
  let omega := 2 * Real.pi * freq / sample_rate
  let sin_omega := Real.sin omega
  let cos_omega := Real.cos omega
  let alpha := sin_omega / (2 * adjusted_q)
  match bt with
  | .LowShelf =>
      let ap1 := if 1 < a then a + 1 else 1 / a + 1
      let am1 := if 1 < a then a - 1 else 1 / a - 1
      let ap1_cos := ap1 * cos_omega
      let am1_cos := am1 * cos_omega
      ⟨a * (ap1 - am1_cos + alpha),
       2 * a * (am1 - ap1_cos),
       a * (ap1 - am1_cos - alpha),
       ap1 + am1_cos + alpha,
       -2 * (am1 + ap1_cos),
       ap1 + am1_cos - alpha⟩
  | .Peak =>
      let alpha_a := alpha * a
      let alpha_div_a := alpha / a
      ⟨1 + alpha_a,
       -2 * cos_omega,
       1 - alpha_a,
       1 + alpha_div_a,
       -2 * cos_omega,
       1 - alpha_div_a⟩
  | .HighShelf =>
      let ap1 := if 1 < a then a + 1 else 1 / a + 1
      let am1 := if 1 < a then a - 1 else 1 / a - 1
      let ap1_cos := ap1 * cos_omega
      let am1_cos := am1 * cos_omega
      ⟨a * (ap1 + am1_cos + alpha),
       -2 * a * (am1 + ap1_cos),
       a * (ap1 + am1_cos - alpha),
       ap1 - am1_cos + alpha,
       2 * (am1 - ap1_cos),
       ap1 - am1_cos - alpha⟩

/-- The normalization step at the end of `EQBand::set_params`: divide the
raw coefficients by `a0 + ε`, `ε = 1e-6`, and set `a0` to `1`. -/
noncomputable def normalizeCoeffs (r : RawCoeffs) : BiquadCoeffs :=
  let epsilon : ℝ := 1e-6
  ⟨r.b0 / (r.a0 + epsilon),
   r.b1 / (r.a0 + epsilon),
   r.b2 / (r.a0 + epsilon),
   1,
   r.a1 / (r.a0 + epsilon),
   r.a2 / (r.a0 + epsilon)⟩

/-- `EQBand::new`: unit coefficients and zeroed filter memory. -/
def EQBand.new (band_type : BandType) (freq gain q : ℝ) : EQBand :=
  { band_type := band_type
    freq := freq
    gain := gain
    q := q
    coeffs := ⟨1, 0, 0, 1, 0, 0⟩
    state := ⟨0, 0, 0, 0⟩ }

/-- `EQBand::set_params`: stores `freq`, stores the *adjusted* Q,
recomputes the coefficients.  Mirroring the source, the `gain` field and
the filter `state` are not written. -/
noncomputable def EQBand.set_params (b : EQBand) (freq gain_db q sample_rate : ℝ) :
    EQBand :=
  { b with
    freq := freq
    q := adjustedQ b.band_type ((10 : ℝ) ^ (gain_db / 40)) q
    coeffs := normalizeCoeffs (biquadRaw b.band_type freq gain_db q sample_rate) }

/-- `EQBand::process`: the direct-form-I biquad step; returns the output
together with the band whose delay lines have been shifted. -/
def EQBand.process (b : EQBand) (input : ℝ) : ℝ × EQBand :=
  let output := b.coeffs.b0 * input
    + b.coeffs.b1 * b.state.x1
    + b.coeffs.b2 * b.state.x2
    - b.coeffs.a1 * b.state.y1
    - b.coeffs.a2 * b.state.y2
  (output, { b with state := ⟨input, b.state.x1, output, b.state.y1⟩ })

/-- Errors returned by the `ParametricEQ` operations.  The source returns
`&'static str` messages; they are modelled by the spec's error taxonomy
(`CapacityExceeded` for "Maximum number of bands (16) reached",
`IndexOutOfRange` for "Band index out of range"). -/
inductive EQError where
  | capacityExceeded
  | indexOutOfRange
deriving DecidableEq, Repr

/-- `ParametricEQ::new`. -/
def ParametricEQ.new (sample_rate : ℝ) : ParametricEQ :=
  { sample_rate := sample_rate, bands := [] }

/-- `ParametricEQ::set_sample_rate`: stores the rate and calls
`band.set_params(band.freq, band.gain, band.q, sample_rate)` on every band. -/
noncomputable def ParametricEQ.set_sample_rate (eq : ParametricEQ) (sample_rate : ℝ) :
    ParametricEQ :=
  { sample_rate := sample_rate
    bands := eq.bands.map fun b => b.set_params b.freq b.gain b.q sample_rate }

/-- `ParametricEQ::add_band`: fails once 16 bands exist, otherwise pushes a
fresh band whose params have been set at the EQ's sample rate.  The pair
returns the `Result` together with the (possibly unchanged) EQ. -/
noncomputable def ParametricEQ.add_band (eq : ParametricEQ) (band_type : BandType)
    (freq gain_db q : ℝ) : Except EQError Unit × ParametricEQ :=
  if 16 ≤ eq.bands.length then
    (.error .capacityExceeded, eq)
  else
    let new_band := (EQBand.new band_type freq gain_db q).set_params
      freq gain_db q eq.sample_rate
    (.ok (), { eq with bands := eq.bands ++ [new_band] })

/-- `ParametricEQ::remove_band`: fails for `index ≥ len`, otherwise removes
the band at `index` (shifting the rest down, as `Vec::remove` does). -/
def ParametricEQ.remove_band (eq : ParametricEQ) (index : ℕ) :
    Except EQError Unit × ParametricEQ :=
  if eq.bands.length ≤ index then
    (.error .indexOutOfRange, eq)
  else
    (.ok (), { eq with bands := eq.bands.eraseIdx index })

/-- `ParametricEQ::set_band_params`: fails for `band ≥ len`, otherwise
calls `set_params` on the band at that index with the EQ's sample rate. -/
noncomputable def ParametricEQ.set_band_params (eq : ParametricEQ) (band : ℕ)
    (freq gain_db q : ℝ) : Except EQError Unit × ParametricEQ :=
  if h : eq.bands.length ≤ band then
    (.error .indexOutOfRange, eq)
  else
    (.ok (),
     { eq with
       bands := eq.bands.set band
         ((eq.bands.get ⟨band, by omega⟩).set_params freq gain_db q eq.sample_rate) })

/-- `ParametricEQ::process`: cascades the input through the bands in order
(the `for band in &mut self.bands` loop), threading each band's updated
state back into the list. -/
def ParametricEQ.process (eq : ParametricEQ) (input : ℝ) : ℝ × ParametricEQ :=
  let step := eq.bands.foldl
    (fun (acc : ℝ × List EQBand) band =>
      let r := band.process acc.1
      (r.1, acc.2 ++ [r.2]))
    (input, [])
  (step.1, { eq with bands := step.2 })

/-- `DCBlocker` from `filters.rs`. -/
structure DCBlocker where
  prev_input : ℝ
  prev_output : ℝ
  coeff : ℝ

/-- `DCBlocker::calculate_coefficient`: pole for a 20 Hz corner,
`R = (τ·fs − 1)/(τ·fs + 1)` with `τ = 1/(2π·20)`. -/
noncomputable def DCBlocker.calculate_coefficient (sample_rate : ℝ) : ℝ :=
  let corner_freq : ℝ := 20
  let tau := 1 / (2 * Real.pi * corner_freq)
  (tau * sample_rate - 1) / (tau * sample_rate + 1)

/-- `DCBlocker::new`: zeroed history, rate-derived coefficient. -/
noncomputable def DCBlocker.new (sample_rate : ℝ) : DCBlocker :=
  { prev_input := 0
    prev_output := 0
    coeff := DCBlocker.calculate_coefficient sample_rate }

/-- `DCBlocker::set_sample_rate`: recomputes the coefficient only. -/
noncomputable def DCBlocker.set_sample_rate (d : DCBlocker) (sample_rate : ℝ) :
    DCBlocker :=
  { d with coeff := DCBlocker.calculate_coefficient sample_rate }

/-- `DCBlocker::process`: `y = x − prev_input + coeff·prev_output`, then
store the new input and output. -/
def DCBlocker.process (d : DCBlocker) (input : ℝ) : ℝ × DCBlocker :=
  let output := input - d.prev_input + d.coeff * d.prev_output
  (output, { prev_input := input, prev_output := output, coeff := d.coeff })

/-- The local `clip` helper inside `nonlinearity::cubic`:
`x.max(lo).min(hi)`. -/
noncomputable def clip (lo hi x : ℝ) : ℝ := min (max x lo) hi

/-- The local `c3` helper inside `nonlinearity::cubic`: `x − x·x·x/3`. -/
noncomputable def c3 (x : ℝ) : ℝ := x - x * x * x / 3

/-- The pregain of `nonlinearity::cubic`: `10^(2·drive)`. -/
noncomputable def pregain (drive : ℝ) : ℝ := (10 : ℝ) ^ (2 * drive)

/-- The postgain of `nonlinearity::cubic`: `1.0f32.max(1.0 / pregain)`. -/
noncomputable def postgain (drive : ℝ) : ℝ := max 1 (1 / pregain drive)

/-- `nonlinearity::cubic`: pregain, offset, clip to `[−1,1]`, cubic
polynomial, gain compensation. -/
noncomputable def cubic (x drive offset : ℝ) : ℝ :=
  let result := x * pregain drive
  let result := result + offset
  let result := clip (-1) 1 result
  let result := c3 result
  result * postgain drive

/-- The composition stated by the spec for the cubic shaper, written from
the spec's words (for comparison with `cubic`, which is written from the
source): `pregain = 10^(2·drive); y = clip(x·pregain + offset, −1, 1);
y = y − y³/3; postgain = max(1, 1/pregain); return y·postgain`. -/
noncomputable def cubicSpec (x drive offset : ℝ) : ℝ :=
  let pg : ℝ := (10 : ℝ) ^ (2 * drive)
  let y := clip (-1) 1 (x * pg + offset)
  let y := y - y ^ 3 / 3
  let post := max 1 (1 / pg)
  y * post

/-- The per-channel mutable state used by the per-sample transform in
`Melter::process` (`lib.rs`): one `ParametricEQ` and one `DCBlocker`. -/
structure ChannelState where
  eq : ParametricEQ
  dc : DCBlocker

/-- The body of the per-sample loop inside the closure passed to
`oversampler.process` in `Melter::process` (`lib.rs` lines 296-316):
apply gain; if `pre_post_eq`, apply EQ; apply `cubic` with the sample's
drive and offset `0.5`; apply the DC blocker; if `!pre_post_eq`, apply EQ. -/
noncomputable def melterSample (pre_post_eq : Bool) (gain drive x : ℝ)
    (st : ChannelState) : ℝ × ChannelState :=
  let s1 := x * gain
  let r1 := if pre_post_eq then st.eq.process s1 else (s1, st.eq)
  let s2 := cubic r1.1 drive 0.5
  let r2 := st.dc.process s2
  let r3 := if !pre_post_eq then r1.2.process r2.1 else (r2.1, r1.2)
  (r3.1, ⟨r3.2, r2.2⟩)

/-- Events of the per-channel block-processing loop of `Melter::process`,
used to record the order in which the loop touches the smoothers, the EQ
band parameters, and each oversampled sample. -/
inductive ChainEvent where
  /-- Reads the three boost smoothers (`lib.rs` 286-288). -/
  | readBoosts
  /-- Writes one band's params via `set_band_params` (`lib.rs` 289-291). -/
  | setBand (band : ℕ)
  /-- Multiplies sample `i` by its gain value. -/
  | applyGain (i : ℕ)
  /-- Runs sample `i` through the parametric EQ. -/
  | applyEQ (i : ℕ)
  /-- Runs sample `i` through the cubic shaper. -/
  | applyCubic (i : ℕ)
  /-- Runs sample `i` through the DC blocker. -/
  | applyDC (i : ℕ)
deriving DecidableEq, Repr

/-- The events the per-sample loop body emits for oversampled sample `i`
(`lib.rs` lines 296-316), in source order. -/
def sampleTrace (pre_post_eq : Bool) (i : ℕ) : List ChainEvent :=
  [.applyGain i]
    ++ (if pre_post_eq then [.applyEQ i] else [])
    ++ [.applyCubic i, .applyDC i]
    ++ (if !pre_post_eq then [.applyEQ i] else [])

/-- The events one channel of one block emits in `Melter::process`
(`lib.rs` lines 286-318): the three boost smoothers are read and the three
band params are written once, before the per-sample loop runs over the
`n` oversampled samples. -/
def channelBlockTrace (pre_post_eq : Bool) (n : ℕ) : List ChainEvent :=
  [.readBoosts, .setBand 0, .setBand 1, .setBand 2]
    ++ (List.range n).flatMap (sampleTrace pre_post_eq)

/-- Sequential cascade of a list of bands, used to state what the
`foldl` inside `ParametricEQ.process` computes. -/
def cascadeBands : List EQBand → ℝ → ℝ × List EQBand
  | [], x => (x, [])
  | b :: bs, x =>
      let r := b.process x
      let rest := cascadeBands bs r.1
      (rest.1, r.2 :: rest.2)

lemma foldl_process_eq_cascade (l : List EQBand) (x : ℝ) (acc : List EQBand) :
    l.foldl
      (fun (acc : ℝ × List EQBand) band =>
        let r := band.process acc.1
        (r.1, acc.2 ++ [r.2]))
      (x, acc)
    = ((cascadeBands l x).1, acc ++ (cascadeBands l x).2) := by
  induction l generalizing x acc with
  | nil => simp [cascadeBands]
  | cons b bs ih =>
      simp only [List.foldl_cons, cascadeBands, ih]
      simp

lemma parametricEQ_process_eq_cascade (eq : ParametricEQ) (x : ℝ) :
    eq.process x
      = ((cascadeBands eq.bands x).1,
         { eq with bands := (cascadeBands eq.bands x).2 }) := by
  simp [ParametricEQ.process, foldl_process_eq_cascade]

/-- C8: `EQBand::process` returns
`y = b0·x + b1·x1 + b2·x2 − a1·y1 − a2·y2` computed from the pre-call
memory and then shifts the memory (`x2 ← x1`, `x1 ← x`, `y2 ← y1`,
`y1 ← y`); `ParametricEQ::process` cascades the input through the bands in
insertion order and is the identity on the input when there are no bands. -/
theorem eq_process_biquad_and_cascade (b : EQBand) (eq : ParametricEQ) (x : ℝ) :
    ((b.process x).1
        = b.coeffs.b0 * x + b.coeffs.b1 * b.state.x1 + b.coeffs.b2 * b.state.x2
          - b.coeffs.a1 * b.state.y1 - b.coeffs.a2 * b.state.y2)
    ∧ (b.process x).2.state.x1 = x
    ∧ (b.process x).2.state.x2 = b.state.x1
    ∧ (b.process x).2.state.y1 = (b.process x).1
    ∧ (b.process x).2.state.y2 = b.state.y1
    ∧ (b.process x).2.coeffs = b.coeffs
    ∧ eq.process x
        = ((cascadeBands eq.bands x).1,
           { eq with bands := (cascadeBands eq.bands x).2 })
    ∧ (eq.bands = [] → eq.process x = (x, eq)) := by
  refine ⟨rfl, rfl, rfl, rfl, rfl, rfl, parametricEQ_process_eq_cascade eq x, ?_⟩
  intro h
  cases eq with
  | mk sr bands =>
      cases h
      simp [parametricEQ_process_eq_cascade, cascadeBands]

/-- C8 witness: on an EQ with no bands, `process` returns the input and
the EQ unchanged. -/
theorem eq_process_biquad_and_cascade_witness :
    (ParametricEQ.new 44100).process 2 = (2, ParametricEQ.new 44100) :=
  (eq_process_biquad_and_cascade (EQBand.new .Peak 1000 0 1)
      (ParametricEQ.new 44100) 2).2.2.2.2.2.2.2 rfl

/-- C5: `cubic(x, drive, offset)` equals the spec's composition
`pregain = 10^(2·drive); y = clip(x·pregain + offset, −1, 1);
y = y − y³/3; postgain = max(1, 1/pregain); result = y·postgain`, and is a
pure function of its three arguments. -/
theorem cubic_eq_spec_composition (x drive offset : ℝ) :
    cubic x drive offset = cubicSpec x drive offset := by
  simp only [cubic, cubicSpec, c3, pregain, postgain]
  ring_nf

/-- C9: `DCBlocker::process` returns `y = x − prev_input + R·prev_output`
and stores the new input/output pair; `new` starts from zeroed history and
both `new` and `set_sample_rate` derive the pole as
`R = (τ·fs − 1)/(τ·fs + 1)` with `τ = 1/(2π·20)`. -/
theorem dcblocker_process_and_pole (d : DCBlocker) (x fs : ℝ) :
    ((d.process x).1 = x - d.prev_input + d.coeff * d.prev_output)
    ∧ (d.process x).2.prev_input = x
    ∧ (d.process x).2.prev_output = (d.process x).1
    ∧ (d.process x).2.coeff = d.coeff
    ∧ DCBlocker.new fs
        = { prev_input := 0, prev_output := 0
            coeff := (1 / (2 * Real.pi * 20) * fs - 1)
              / (1 / (2 * Real.pi * 20) * fs + 1) }
    ∧ d.set_sample_rate fs
        = { d with
            coeff := (1 / (2 * Real.pi * 20) * fs - 1)
              / (1 / (2 * Real.pi * 20) * fs + 1) } := by
  refine ⟨rfl, rfl, rfl, rfl, ?_, ?_⟩ <;>
    simp [DCBlocker.new, DCBlocker.set_sample_rate, DCBlocker.calculate_coefficient]

lemma map_set_self {α : Type} (f : EQBand → α) (g : EQBand → EQBand)
    (hg : ∀ b, f (g b) = f b) :
    ∀ (l : List EQBand) (i : ℕ) (h : i < l.length),
      (l.set i (g (l.get ⟨i, h⟩))).map f = l.map f
  | [], i, h => by simp at h
  | b :: bs, 0, _ => by simp [hg]
  | b :: bs, i + 1, h => by
      have hb : i < bs.length := by simpa using h
      have hset : (b :: bs).set (i + 1) (g ((b :: bs).get ⟨i + 1, h⟩))
          = b :: bs.set i (g (bs.get ⟨i, hb⟩)) := rfl
      rw [hset, List.map_cons, List.map_cons,
        map_set_self f g hg bs i hb]

/-- C10: the parameter-mutating operations preserve filter memory — for
every band, `EQBand::set_params` leaves `state` untouched, and both
`ParametricEQ::set_sample_rate` and `ParametricEQ::set_band_params` leave
every band's `FilterState` unchanged. -/
theorem param_updates_preserve_memory (b : EQBand) (eq : ParametricEQ)
    (i : ℕ) (f g q r : ℝ) :
    (EQBand.set_params b f g q r).state = b.state
    ∧ (eq.set_sample_rate r).bands.map EQBand.state = eq.bands.map EQBand.state
    ∧ (eq.set_band_params i f g q).2.bands.map EQBand.state
        = eq.bands.map EQBand.state := by
  refine ⟨rfl, ?_, ?_⟩
  · simp only [ParametricEQ.set_sample_rate, List.map_map]
    rfl
  · rw [ParametricEQ.set_band_params]
    split
    · rfl
    · exact map_set_self EQBand.state
        (fun b => b.set_params f g q eq.sample_rate) (fun _ => rfl)
        eq.bands i (by omega)

/-- C7: `add_band` succeeds exactly when the band count is below 16 and
otherwise fails with `CapacityExceeded`; `remove_band` and
`set_band_params` succeed exactly when the index is in range and otherwise
fail with `IndexOutOfRange`; every failure returns the error as a value and
leaves the EQ (in particular its band list) unchanged. -/
theorem eq_error_contract (eq : ParametricEQ) (bt : BandType)
    (f g q f' g' q' : ℝ) (i : ℕ) :
    ((eq.add_band bt f g q).1 = .ok () ↔ eq.bands.length < 16)
    ∧ (16 ≤ eq.bands.length → eq.add_band bt f g q = (.error .capacityExceeded, eq))
    ∧ ((eq.remove_band i).1 = .ok () ↔ i < eq.bands.length)
    ∧ ((eq.set_band_params i f' g' q').1 = .ok () ↔ i < eq.bands.length)
    ∧ (eq.bands.length ≤ i →
        eq.remove_band i = (.error .indexOutOfRange, eq)
        ∧ eq.set_band_params i f' g' q' = (.error .indexOutOfRange, eq)) := by
  refine ⟨?_, ?_, ?_, ?_, ?_⟩
  · rw [ParametricEQ.add_band]
    split <;> rename_i h <;> simp <;> omega
  · intro h
    rw [ParametricEQ.add_band]
    simp [h]
  · rw [ParametricEQ.remove_band]
    split <;> rename_i h <;> simp <;> omega
  · rw [ParametricEQ.set_band_params]
    split <;> rename_i h <;> simp <;> omega
  · intro h
    constructor
    · rw [ParametricEQ.remove_band]
      simp [h]
    · rw [ParametricEQ.set_band_params]
      simp [h]

/-- C7 witness: on a fresh empty EQ, removing band 0 fails with
`IndexOutOfRange` and leaves the EQ unchanged. -/
theorem eq_error_contract_witness :
    (ParametricEQ.new 44100).remove_band 0
      = (.error .indexOutOfRange, ParametricEQ.new 44100) :=
  ((eq_error_contract (ParametricEQ.new 44100) .Peak 100 0 1 100 0 1 0).2.2.2.2
    (le_refl 0)).1

/-- C6: per oversampled sample the loop body runs, in order: gain, then
(when `pre_post_eq`) EQ, then the cubic shaper, then the DC blocker, then
(when not `pre_post_eq`) EQ — and exactly one EQ application executes per
sample.  The last two conjuncts restate the dataflow of `melterSample` on
each branch: the EQ state advances by exactly one `process` step. -/
theorem chain_sample_order (p : Bool) (i : ℕ) (g d x : ℝ) (st : ChannelState) :
    (sampleTrace p i).count (.applyEQ i) = 1
    ∧ sampleTrace true i = [.applyGain i, .applyEQ i, .applyCubic i, .applyDC i]
    ∧ sampleTrace false i = [.applyGain i, .applyCubic i, .applyDC i, .applyEQ i]
    ∧ melterSample true g d x st
        = ((st.dc.process (cubic (st.eq.process (x * g)).1 d 0.5)).1,
           ⟨(st.eq.process (x * g)).2,
            (st.dc.process (cubic (st.eq.process (x * g)).1 d 0.5)).2⟩)
    ∧ melterSample false g d x st
        = ((((st.eq.process ((st.dc.process (cubic (x * g) d 0.5)).1))).1),
           ⟨(st.eq.process ((st.dc.process (cubic (x * g) d 0.5)).1)).2,
            (st.dc.process (cubic (x * g) d 0.5)).2⟩) := by
  refine ⟨?_, ?_, ?_, rfl, rfl⟩
  · cases p <;> simp [sampleTrace, List.count_cons]
  · simp [sampleTrace]
  · simp [sampleTrace]

/-- The property the spec asserts for C2, written from the spec's words:
within one channel of one block, the three EQ band gains are read from
their smoothers once per oversampled sample (so with `n` oversampled
samples the trace contains `n` smoother-read events). -/
def perSampleBoostReads (pre_post_eq : Bool) (n : ℕ) : Prop :=
  (channelBlockTrace pre_post_eq n).count .readBoosts = n

/-- C2 counterexample: in a block of 2 oversampled samples, the loop in
`Melter::process` reads the boost smoothers once, not once per sample. -/
theorem boost_reads_per_sample_counterexample :
    ¬ perSampleBoostReads false 2 := by
  unfold perSampleBoostReads
  decide

lemma sampleTrace_no_readBoosts (p : Bool) (i : ℕ) :
    (sampleTrace p i).count ChainEvent.readBoosts = 0 := by
  cases p <;> simp [sampleTrace, List.count_cons]

/-- C2 amended: in `Melter::process` the three EQ band gains are read from
their smoothers and written into the band parameters once per channel per
block — before any of that block's oversampled samples are processed — and
never inside the per-sample loop, so the EQ coefficients set from the
boosts are constant across the block's samples. -/
theorem boost_reads_once_per_block (p : Bool) (n : ℕ) :
    (channelBlockTrace p n).count .readBoosts = 1
    ∧ (channelBlockTrace p n).take 4
        = [.readBoosts, .setBand 0, .setBand 1, .setBand 2]
    ∧ ∀ i, (sampleTrace p i).count .readBoosts = 0 := by
  refine ⟨?_, ?_, sampleTrace_no_readBoosts p⟩
  · rw [channelBlockTrace, List.count_append]
    have h : ((List.range n).flatMap (sampleTrace p)).count ChainEvent.readBoosts
        = 0 := by
      rw [List.count_eq_zero]
      intro hmem
      rcases List.mem_flatMap.1 hmem with ⟨i, _, hi⟩
      have := sampleTrace_no_readBoosts p i
      rw [List.count_eq_zero] at this
      exact this hi
    rw [h]
    rfl
  · rw [channelBlockTrace]
    rfl

lemma pregain_pos (drive : ℝ) : 0 < pregain drive :=
  Real.rpow_pos_of_pos (by norm_num) _

lemma one_le_pregain {drive : ℝ} (h : 0 ≤ drive) : 1 ≤ pregain drive := by
  have : (10 : ℝ) ^ (0 : ℝ) ≤ (10 : ℝ) ^ (2 * drive) :=
    Real.rpow_le_rpow_of_exponent_le (by norm_num) (by linarith)
  simpa [Real.rpow_zero, pregain] using this

lemma postgain_eq_one {drive : ℝ} (h : 0 ≤ drive) : postgain drive = 1 := by
  have h1 := one_le_pregain h
  have h0 := pregain_pos drive
  rw [postgain, max_eq_left]
  rw [div_le_one h0]
  exact h1

lemma clip_le_one (z : ℝ) : clip (-1) 1 z ≤ 1 := min_le_right _ _

lemma neg_one_le_clip (z : ℝ) : -1 ≤ clip (-1) 1 z :=
  le_min (le_max_right _ _) (by norm_num)

lemma abs_c3_le {y : ℝ} (h1 : -1 ≤ y) (h2 : y ≤ 1) : |c3 y| ≤ 1 := by
  rw [abs_le, c3]
  constructor <;> nlinarith [sq_nonneg (y - 1), sq_nonneg (y + 1)]

/-- C4: with the chain's fixed offset `0.5`, the cubic shaper's output is
bounded by `1` in magnitude for every `drive ≥ 0` and every input; and at
`drive = 0` the pregain and postgain are both `1`, so the output is
`clip(x + 0.5, −1, 1)` minus its cubed-third term. -/
theorem cubic_output_bounded (x drive : ℝ) :
    (0 ≤ drive → |cubic x drive 0.5| ≤ 1)
    ∧ pregain 0 = 1
    ∧ postgain 0 = 1
    ∧ cubic x 0 0.5
        = clip (-1) 1 (x + 0.5) - (clip (-1) 1 (x + 0.5)) ^ 3 / 3 := by
  have hpre0 : pregain 0 = 1 := by
    simp [pregain, Real.rpow_zero]
  have hpost0 : postgain 0 = 1 := postgain_eq_one le_rfl
  refine ⟨?_, hpre0, hpost0, ?_⟩
  · intro h
    have hclip1 := clip_le_one (x * pregain drive + 0.5)
    have hclip2 := neg_one_le_clip (x * pregain drive + 0.5)
    have := abs_c3_le hclip2 hclip1
    simpa [cubic, postgain_eq_one h] using this
  · simp only [cubic, hpre0, hpost0, c3, mul_one]
    ring

/-- C4 witness: at `drive = 1`, `x = 3`, the output magnitude is at
most `1`. -/
theorem cubic_output_bounded_witness : |cubic 3 1 0.5| ≤ 1 :=
  (cubic_output_bounded 3 1).1 (by norm_num)

lemma lowShelf_a0_eq (f g q r : ℝ) :
    (biquadRaw .LowShelf f g q r).a0
      = (if 1 < (10 : ℝ) ^ (g / 40) then (10 : ℝ) ^ (g / 40) + 1
          else 1 / (10 : ℝ) ^ (g / 40) + 1)
        + (if 1 < (10 : ℝ) ^ (g / 40) then (10 : ℝ) ^ (g / 40) - 1
            else 1 / (10 : ℝ) ^ (g / 40) - 1)
          * Real.cos (2 * Real.pi * f / r)
        + Real.sin (2 * Real.pi * f / r)
          / (2 * (q * max ((10 : ℝ) ^ (g / 40)) 1)) := rfl

lemma peak_a0_eq (f g q r : ℝ) :
    (biquadRaw .Peak f g q r).a0
      = 1 + (Real.sin (2 * Real.pi * f / r) / (2 * q)) / (10 : ℝ) ^ (g / 40) :=
  rfl

lemma highShelf_a0_eq (f g q r : ℝ) :
    (biquadRaw .HighShelf f g q r).a0
      = (if 1 < (10 : ℝ) ^ (g / 40) then (10 : ℝ) ^ (g / 40) + 1
          else 1 / (10 : ℝ) ^ (g / 40) + 1)
        - (if 1 < (10 : ℝ) ^ (g / 40) then (10 : ℝ) ^ (g / 40) - 1
            else 1 / (10 : ℝ) ^ (g / 40) - 1)
          * Real.cos (2 * Real.pi * f / r)
        + Real.sin (2 * Real.pi * f / r)
          / (2 * (q * max ((10 : ℝ) ^ (g / 40)) 1)) := rfl

/-- C3: for every in-range input (`0 < freq < sample_rate/2`, `Q > 0`, any
gain and band type) the raw `a0` produced by `EQBand::set_params` is
positive, so the normalization denominator `a0 + ε`, `ε = 1e-6`, has
magnitude at least `ε`. -/
theorem biquad_denominator_bound (bt : BandType) (freq gain_db q sample_rate : ℝ)
    (hf : 0 < freq) (hny : freq < sample_rate / 2) (hq : 0 < q) :
    (1e-6 : ℝ) ≤ |(biquadRaw bt freq gain_db q sample_rate).a0 + 1e-6| := by
  have hr : 0 < sample_rate := by linarith
  have hπ := Real.pi_pos
  have hω : 0 < 2 * Real.pi * freq / sample_rate := by positivity
  have hωπ : 2 * Real.pi * freq / sample_rate < Real.pi := by
    rw [div_lt_iff hr]
    nlinarith
  have hs : 0 < Real.sin (2 * Real.pi * freq / sample_rate) :=
    Real.sin_pos_of_pos_of_lt_pi hω hωπ
  have hc := Real.cos_le_one (2 * Real.pi * freq / sample_rate)
  have hc' := Real.neg_one_le_cos (2 * Real.pi * freq / sample_rate)
  have ha : (0 : ℝ) < (10 : ℝ) ^ (gain_db / 40) :=
    Real.rpow_pos_of_pos (by norm_num) _
  have key : 0 < (biquadRaw bt freq gain_db q sample_rate).a0 := by
    cases bt with
    | Peak =>
        rw [peak_a0_eq]
        have : 0 < (Real.sin (2 * Real.pi * freq / sample_rate) / (2 * q))
            / (10 : ℝ) ^ (gain_db / 40) :=
          div_pos (div_pos hs (by linarith)) ha
        linarith
    | LowShelf =>
        rw [lowShelf_a0_eq]
        have hmax : 0 < q * max ((10 : ℝ) ^ (gain_db / 40)) 1 := by positivity
        have hα : 0 < Real.sin (2 * Real.pi * freq / sample_rate)
            / (2 * (q * max ((10 : ℝ) ^ (gain_db / 40)) 1)) :=
          div_pos hs (by linarith)
        split_ifs with h1
        · nlinarith [mul_le_mul_of_nonneg_left hc'
            (by linarith : (0 : ℝ) ≤ (10 : ℝ) ^ (gain_db / 40) - 1)]
        · have h1A : 1 ≤ 1 / (10 : ℝ) ^ (gain_db / 40) := by
            rw [le_div_iff ha]
            linarith [not_lt.mp h1]
          nlinarith [mul_le_mul_of_nonneg_left hc'
            (by linarith : (0 : ℝ) ≤ 1 / (10 : ℝ) ^ (gain_db / 40) - 1)]
    | HighShelf =>
        rw [highShelf_a0_eq]
        have hmax : 0 < q * max ((10 : ℝ) ^ (gain_db / 40)) 1 := by positivity
        have hα : 0 < Real.sin (2 * Real.pi * freq / sample_rate)
            / (2 * (q * max ((10 : ℝ) ^ (gain_db / 40)) 1)) :=
          div_pos hs (by linarith)
        split_ifs with h1
        · nlinarith [mul_le_mul_of_nonneg_left hc
            (by linarith : (0 : ℝ) ≤ (10 : ℝ) ^ (gain_db / 40) - 1)]
        · have h1A : 1 ≤ 1 / (10 : ℝ) ^ (gain_db / 40) := by
            rw [le_div_iff ha]
            linarith [not_lt.mp h1]
          nlinarith [mul_le_mul_of_nonneg_left hc
            (by linarith : (0 : ℝ) ≤ 1 / (10 : ℝ) ^ (gain_db / 40) - 1)]
  rw [abs_of_pos (by linarith)]
  linarith

/-- C3 witness: the Peak band at 100 Hz, gain 0 dB, Q 1, rate 44100 is an
in-range input and the theorem applies to it. -/
theorem biquad_denominator_bound_witness :
    (1e-6 : ℝ) ≤ |(biquadRaw .Peak 100 0 1 44100).a0 + 1e-6| :=
  biquad_denominator_bound .Peak 100 0 1 44100 (by norm_num) (by norm_num)
    (by norm_num)

lemma peak_b0_eq (f g q r : ℝ) :
    (biquadRaw .Peak f g q r).b0
      = 1 + Real.sin (2 * Real.pi * f / r) / (2 * q) * (10 : ℝ) ^ (g / 40) :=
  rfl

lemma normalize_b0 (rc : RawCoeffs) :
    (normalizeCoeffs rc).b0 = rc.b0 / (rc.a0 + 1e-6) := rfl

/-- The normalized `b0` of a Peak band depends on the gain: at 1000 Hz,
Q 1, rate 44100, gains 0 dB and 6 dB give different coefficients. -/
lemma peak_b0_gain_sensitive :
    (normalizeCoeffs (biquadRaw .Peak 1000 0 1 44100)).b0
      ≠ (normalizeCoeffs (biquadRaw .Peak 1000 6 1 44100)).b0 := by
  have hπ := Real.pi_pos
  have hω : (0 : ℝ) < 2 * Real.pi * 1000 / 44100 := by positivity
  have hωπ : 2 * Real.pi * 1000 / 44100 < Real.pi := by
    rw [div_lt_iff (by norm_num : (0 : ℝ) < 44100)]
    nlinarith
  have hs : 0 < Real.sin (2 * Real.pi * 1000 / 44100) :=
    Real.sin_pos_of_pos_of_lt_pi hω hωπ
  have hA : (1 : ℝ) < (10 : ℝ) ^ ((6 : ℝ) / 40) := by
    have h0 := Real.rpow_lt_rpow_of_exponent_lt
      (by norm_num : (1 : ℝ) < 10) (by norm_num : (0 : ℝ) < 6 / 40)
    simpa using h0
  rw [normalize_b0, normalize_b0, peak_b0_eq, peak_b0_eq, peak_a0_eq, peak_a0_eq]
  set s := Real.sin (2 * Real.pi * 1000 / 44100) with hs_def
  set A := (10 : ℝ) ^ ((6 : ℝ) / 40) with hA_def
  have h10 : (10 : ℝ) ^ ((0 : ℝ) / 40) = 1 := by
    norm_num
  rw [h10]
  have hA0 : (0 : ℝ) < A := by linarith
  set α := s / (2 * 1) with hα_def
  have hα : 0 < α := by
    rw [hα_def]
    positivity
  set β := α / A with hβ_def
  have hβ : 0 < β := div_pos hα hA0
  have hαβ : α = A * β := by
    rw [hβ_def]
    field_simp
  intro h
  have hd1 : (0 : ℝ) < 1 + α * 1 + 1e-6 := by nlinarith
  have hd2 : (0 : ℝ) < 1 + α / A + 1e-6 := by
    have : 0 < α / A := div_pos hα hA0
    nlinarith
  rw [div_eq_div_iff (by linarith) (by linarith)] at h
  rw [hαβ] at h
  have hA2 : 1 < A * A := by nlinarith
  nlinarith [mul_pos hβ (sub_pos.2 hA2),
    mul_pos (mul_pos hA0 (mul_pos hβ hβ)) (sub_pos.2 hA2),
    mul_pos (mul_pos hA0 hβ) (sub_pos.2 hA)]

/-- The concrete `ParametricEQ` of the C1 scenario after `add_band`:
a fresh EQ at 44100 Hz with one Peak band (1000 Hz, 0 dB, Q 1). -/
noncomputable def eqAfterAdd : ParametricEQ :=
  ((ParametricEQ.new 44100).add_band .Peak 1000 0 1).2

/-- The C1 scenario: `set_band_params(0, 1000, 6, 1)` (successful)
followed by `set_sample_rate(44100)`. -/
noncomputable def eqAfterRateChange : ParametricEQ :=
  ((eqAfterAdd.set_band_params 0 1000 6 1).2).set_sample_rate 44100

/-- C1 fails on the code: after a successful `set_band_params(0, 1000, 6, 1)`
followed by `set_sample_rate(44100)`, band 0's coefficients do *not* equal
the ones `set_params(1000, 6, 1, 44100)` derives from `(1000, 6, 1, 44100)` —
`set_params` never stores `gain_db`, so `set_sample_rate` recomputes the
band from its construction-time gain (here 0 dB). -/
theorem set_sample_rate_last_params_counterexample :
    eqAfterRateChange.bands.map (fun b => b.coeffs.b0)
      ≠ [(normalizeCoeffs (biquadRaw .Peak 1000 6 1 44100)).b0] := by
  have hbands : eqAfterRateChange.bands.map (fun b => b.coeffs.b0)
      = [(normalizeCoeffs (biquadRaw .Peak 1000 0 1 44100)).b0] := by
    norm_num [eqAfterRateChange, eqAfterAdd, ParametricEQ.new, ParametricEQ.add_band,
      ParametricEQ.set_band_params, ParametricEQ.set_sample_rate,
      EQBand.new, EQBand.set_params, adjustedQ]
  rw [hbands]
  simpa using peak_b0_gain_sensitive

end Melter
